import Mathlib

/-!
Verification development for the Cangjie runtime page allocator
(`src/runtime/src/Common/PageAllocator.h`).

The C++ source is shallowly embedded: machine integers become `Nat` with an
explicit `% 2^w` wherever the width matters, raw byte memory becomes a
function `Nat → Nat`, the intrusive free list stored inside slot memory
becomes the list of free slot addresses carried in the page header, and the
doubly-linked `nonFull` page list becomes a list of page base addresses
(insertion at the head and unlinking become `cons` and `erase`).

External collaborators that are not part of the analyzed source
(`PagePool`, the `AlignUp`/`AlignDown` helpers of `Base/Globals.h`, and the
size-class table of `Common/RunType.h`) are modelled from the spec, as
marked in their doc comments.
-/

namespace MapleRuntime

/-- Modelled from the spec: `MapleRuntime::AlignUp` (Base/Globals.h, not part
of the analyzed source) rounds `x` up to the next multiple of the
power-of-two alignment `a`; numerically `(x + a - 1) / a * a`. -/
def alignUp (x a : Nat) : Nat := (x + a - 1) / a * a

/-- Modelled from the spec: `MapleRuntime::AlignDown` (Base/Globals.h, not
part of the analyzed source) rounds `x` down to a multiple of the
power-of-two alignment `a`; numerically `x / a * a`. -/
def alignDown (x a : Nat) : Nat := x / a * a

/-- AllocatorUtils::ALLOC_ALIGNMENT = 1 << 3 = 8. -/
def ALLOC_ALIGNMENT : Nat := 8

/-- Byte memory: contents of every address, each value below 256. -/
def storeByte (m : Nat → Nat) (a v : Nat) : Nat → Nat :=
  fun x => if x = a then v % 256 else m x

/-- Store of one 8-byte pointer value, little endian, as performed by the
C++ writes through `Slot* next`. -/
def storeWord (m : Nat → Nat) (a v : Nat) : Nat → Nat :=
  (List.range 8).foldl (fun mm i => storeByte mm (a + i) (v / 256 ^ i)) m

/-- Effect of `memset_s(result, slotSize, 0, slotSize)`: the `n` bytes from
`a` become zero. -/
def memsetZero (m : Nat → Nat) (a n : Nat) : Nat → Nat :=
  fun x => if a ≤ x ∧ x < a + n then 0 else m x

/-- Ways an operation of the embedded code can fail to return normally.
`initCheck` and `destroyCheck` are the two `CHECK_DETAIL` diagnostics of
`InitPage` and `DestroyPage`; `nullDeref` is the undefined behavior of
dereferencing the null page pointer in `Allocate` when `PagePool` cannot
produce a page (no diagnostic is emitted on that path); `wild` marks
undefined behavior on a contract violation (releasing a pointer that is
not a live slot of this allocator), unreachable for contract-abiding
callers. -/
inductive Fault where
  | nullDeref
  | initCheck
  | destroyCheck
  | wild
deriving DecidableEq, Repr

/-- sizeof(PageAllocator::Page): `Slot* header`, `Page* prev`, `Page* next`
(8 bytes each on a 64-bit target) plus `uint16_t total` and `uint16_t free`
give 28 bytes, padded to the 8-byte alignment of the pointer members: 32. -/
def sizeofPage : Nat := 32

/-- Slot stride: `AlignUp<uint16_t>(size, ALLOC_ALIGNMENT)` as computed in
the `PageAllocator(uint16_t)` constructor and in `Init`.  The arithmetic is
performed after integer promotion and the result is truncated back to
`uint16_t`, hence the `% 2^16`. -/
def strideOf (size : Nat) : Nat := alignUp size ALLOC_ALIGNMENT % 2 ^ 16

/-- Number of slots carved out of one page: `(ALLOC_PAGE_SIZE - offset) /
slotAlignment` with `offset = AlignUp(sizeof(Page), ALLOC_ALIGNMENT)`,
before the truncation of the result to the `uint16_t` field `free`. -/
def numSlots (P t : Nat) : Nat := (P - alignUp sizeofPage ALLOC_ALIGNMENT) / t

/-- Addresses of the slots of the page based at `b`, in the ascending order
in which the `while` loop of `InitPage` chains them: the first slot sits at
`offset = AlignUp(sizeof(Page), ALLOC_ALIGNMENT)` bytes into the page and
each further slot follows at stride `t`; the loop admits exactly those
slots whose full stride fits before the page end, i.e. `numSlots P t` many. -/
def slotAddrs (P t b : Nat) : List Nat :=
  (List.range (numSlots P t)).map fun k => b + alignUp sizeofPage ALLOC_ALIGNMENT + k * t

/-- One memory page of the slab allocator.  `header` is the intrusive free
slot list (represented by the list of free slot addresses, in list order);
`base` is the address of the page itself (`&page`); `total` and `free` are
the `uint16_t` counters.  The `prev`/`next` links are represented by the
position of `base` in the owning allocator's `nonFull` list. -/
structure Page where
  header : List Nat
  base : Nat
  total : Nat
  free : Nat
deriving DecidableEq, Repr

/-- Page::Allocate: pop the head of the free slot list if it is nonempty
and decrement `free` (a `uint16_t` decrement, hence `+ (2^16 - 1) % 2^16`). -/
def Page.Allocate (p : Page) : Option Nat × Page :=
  match p.header with
  | [] => (none, p)
  | a :: rest => (some a, { p with header := rest, free := (p.free + (2 ^ 16 - 1)) % 2 ^ 16 })

/-- Page::Deallocate: push `slot` as the new free list head and increment
`free`.  The C++ writes the old head pointer into the first word of the
freed slot (`cur->next = header`); that raw store is returned as the
updated byte memory. -/
def Page.Deallocate (p : Page) (slot : Nat) (mem : Nat → Nat) : Page × (Nat → Nat) :=
  let headVal := match p.header with | [] => 0 | h :: _ => h
  ({ p with header := slot :: p.header, free := (p.free + 1) % 2 ^ 16 },
   storeWord mem slot headVal)

/-- Page::Available: `free != 0`. -/
def Page.Available (p : Page) : Bool := p.free != 0

/-- Page::Empty: `free == total`. -/
def Page.Empty (p : Page) : Bool := p.free == p.total

/-- State of one `PageAllocator`.  `nonFull` is the doubly-linked list of
pages with spare capacity, as the list of their base addresses; `pages` is
the bookkeeping of all resident pages (the C++ reaches them through raw
pointers); `supply` models the `PagePool` collaborator: the page-aligned
base addresses it will hand out next, pages returned to it being pushed
back on the front; `live` is ghost state recording the slot addresses
handed to callers and not yet returned; `mem` is the byte memory. -/
structure PageAllocator where
  nonFull : List Nat
  totalPages : Nat
  slotSize : Nat
  slotAlignment : Nat
  pages : List Page
  supply : List Nat
  live : List Nat
  mem : Nat → Nat

/-- Look up a resident page by its base address (the C++ holds a direct
pointer; the model finds the unique record with that base). -/
def findPage (ps : List Page) (b : Nat) : Option Page :=
  ps.find? fun p => p.base == b

/-- Replace the resident page record with base `b`. -/
def setPage (ps : List Page) (b : Nat) (pg : Page) : List Page :=
  ps.map fun p => if p.base = b then pg else p

/-- Drop the resident page record with base `b`. -/
def removePage (ps : List Page) (b : Nat) : List Page :=
  ps.filter fun p => p.base != b

/-- PageAllocator::AddToList: the page becomes the new list head. -/
def AddToList (list : List Nat) (b : Nat) : List Nat := b :: list

/-- PageAllocator::RemoveFromList: unlink the page wherever it is. -/
def RemoveFromList (list : List Nat) (b : Nat) : List Nat := list.erase b

/-- Raw stores performed by the chaining loop of `InitPage`: each slot's
first word receives the address of the next slot (`prevSlot->next = cur`);
the last slot's word is left untouched. -/
def buildLinks (mem : Nat → Nat) : List Nat → (Nat → Nat)
  | [] => mem
  | [_] => mem
  | a :: b :: rest => buildLinks (storeWord mem a b) (b :: rest)

/-- PageAllocator::InitPage on a fresh page based at `b`, for page size `P`
and member `slotAlignment = t`: clear the links, set `free = total =
(P - offset) / t` truncated to `uint16_t`, fail on `CHECK_DETAIL(free >= 1)`
otherwise, then chain every slot in ascending address order. -/
def InitPage (P t b : Nat) (mem : Nat → Nat) : Except Fault (Page × (Nat → Nat)) :=
  let free := numSlots P t % 2 ^ 16
  if free < 1 then .error .initCheck
  else
    let slots := slotAddrs P t b
    .ok ({ header := slots, base := b, total := free, free := free }, buildLinks mem slots)

/-- Tail of PageAllocator::Allocate once `nonFull` is known nonempty:
`result = nonFull->Allocate()`, unlink the head page if it just became
full, then `memset_s(result, slotSize, 0, slotSize)` outside the lock.
The `.wild` branches are unreachable model artifacts (the C++ dereferences
the head pointer directly). -/
def allocateFromHead (P : Nat) (s1 : PageAllocator) : Except Fault (PageAllocator × Option Nat) :=
  match s1.nonFull with
  | [] => .error .wild
  | b :: _ =>
    match findPage s1.pages b with
    | none => .error .wild
    | some pg =>
      let res := (Page.Allocate pg).1
      let pg' := (Page.Allocate pg).2
      let s2 := { s1 with pages := setPage s1.pages b pg' }
      let s3 := if Page.Available pg' then s2
                else { s2 with nonFull := RemoveFromList s2.nonFull b }
      match res with
      | none => .ok (s3, none)
      | some r =>
        .ok ({ s3 with mem := memsetZero s3.mem r s3.slotSize, live := r :: s3.live }, some r)

/-- PageAllocator::Allocate for page size `P`: if `nonFull` is empty, get a
page from the supplier (`CreatePage`), initialize it, link it as the new
`nonFull` head and bump `totalPages` (a `uint32_t`); when the supplier is
exhausted the C++ receives a null `Page*` and `InitPage(*cur)` dereferences
it, modelled as `Fault.nullDeref`.  Then allocate from the head page. -/
def PageAllocator.Allocate (P : Nat) (s : PageAllocator) :
    Except Fault (PageAllocator × Option Nat) :=
  match s.nonFull with
  | [] =>
    match s.supply with
    | [] => .error .nullDeref
    | b :: rest =>
      match InitPage P s.slotAlignment b s.mem with
      | .error f => .error f
      | .ok (pg, mem') =>
        allocateFromHead P
          { s with pages := pg :: s.pages, nonFull := [b], supply := rest,
                   totalPages := (s.totalPages + 1) % 2 ^ 32, mem := mem' }
  | _ :: _ => allocateFromHead P s

/-- PageAllocator::Deallocate for page size `P`: recover the owning page by
`AlignDown(slot, ALLOC_PAGE_SIZE)`, re-link it if it was full, push the
slot back (`Page::Deallocate`), and if the page became empty unlink it,
check `CHECK_DETAIL(free == total)` (`DestroyPage`), return its memory to
the supplier and decrement `totalPages` (a `uint32_t` decrement).  Passing
an address that is not a slot of a resident page is undefined behavior in
the C++ (`.wild`). -/
def PageAllocator.Deallocate (P : Nat) (s : PageAllocator) (slot : Nat) :
    Except Fault PageAllocator :=
  let b := alignDown slot P
  match findPage s.pages b with
  | none => .error .wild
  | some pg =>
    let s1 := if Page.Available pg then s else { s with nonFull := AddToList s.nonFull b }
    let pg' := (Page.Deallocate pg slot s1.mem).1
    let mem' := (Page.Deallocate pg slot s1.mem).2
    let s2 := { s1 with pages := setPage s1.pages b pg', mem := mem',
                        live := s1.live.erase slot }
    if Page.Empty pg' then
      if pg'.free = pg'.total then
        .ok { s2 with nonFull := RemoveFromList s2.nonFull b,
                      pages := removePage s2.pages b,
                      supply := b :: s2.supply,
                      totalPages := (s2.totalPages + (2 ^ 32 - 1)) % 2 ^ 32 }
      else .error .destroyCheck
    else .ok s2

/-- State of a `PageAllocator` right after `Init(size)`: `slotSize = size`
(a `uint16_t` parameter), `slotAlignment = AlignUp(size, ALLOC_ALIGNMENT)`,
no pages, empty `nonFull` list, `totalPages = 0`.  `supply` and `mem` are
the initial supplier contents and byte memory. -/
def initState (size : Nat) (supply : List Nat) (mem : Nat → Nat) : PageAllocator :=
  { nonFull := [], totalPages := 0, slotSize := size, slotAlignment := strideOf size,
    pages := [], supply := supply, live := [], mem := mem }

/-- Result slot of one `Allocate` call, discarding the state. -/
def allocResult (P : Nat) (s : PageAllocator) : Option Nat :=
  match PageAllocator.Allocate P s with
  | .ok (_, r) => r
  | .error _ => none

/-- Sanity conditions on a configuration (page size `P`, configured slot
size `z`) under which the allocator is used: a positive `uint16_t` slot
size whose stride computation does not wrap, at least one slot per page,
a page size that is a multiple of the allocation alignment, and a slot
count that fits the `uint16_t` counters. -/
def GoodParams (P z : Nat) : Prop :=
  0 < z ∧ z + 7 < 2 ^ 16 ∧ 32 + strideOf z ≤ P ∧ 8 ∣ P ∧ numSlots P (strideOf z) < 2 ^ 16

instance (P z : Nat) : Decidable (GoodParams P z) := by
  unfold GoodParams; infer_instance

/-- Component an `AggregateAllocator` request is routed to: one of the
per-size-class `PageAllocator`s (`allocator[index]`), or the page supplier's
raw region path (`PagePool::Instance().GetPage(size)` /
`ReturnPage(p, size)` with the untruncated `size_t` size). -/
inductive Route where
  | slab (index : Nat)
  | pool (size : Nat)
deriving DecidableEq, Repr

/-- Aligned size computed by `AggregateAllocator::Allocate`/`Deallocate`:
`AlignUp(static_cast<uint32_t>(size), ALLOC_ALIGNMENT)` — the `size_t`
request is first truncated to 32 bits, and the `+ 7` of the align-up wraps
in 32-bit arithmetic. -/
def alignedSize32 (size : Nat) : Nat :=
  (size % 2 ^ 32 + (ALLOC_ALIGNMENT - 1)) % 2 ^ 32 / 8 * 8

/-- Routing decision of `AggregateAllocator::Allocate(size)`.  `L` models
`RUN_ALLOC_LARGE_SIZE` and `idx` models `RUNTYPE_SIZE_TO_RUN_IDX`; both
live in `Common/RunType.h`, which is not part of the analyzed source, and
are modelled from the spec as an arbitrary size-class table (the spec only
requires the mapping to be total and monotonic up to the largest class). -/
def allocRoute (L : Nat) (idx : Nat → Nat) (size : Nat) : Route :=
  let alignedSize := alignedSize32 size
  if alignedSize ≤ L then .slab (idx alignedSize) else .pool size

/-- Routing decision of `AggregateAllocator::Deallocate(p, size)`,
transcribed from its own body (it recomputes the aligned size the same
way). -/
def deallocRoute (L : Nat) (idx : Nat → Nat) (size : Nat) : Route :=
  let alignedSize := alignedSize32 size
  if alignedSize ≤ L then .slab (idx alignedSize) else .pool size

/-- Routing decision as the spec's words describe it (for comparison with
`allocRoute`): round the requested byte size itself up to the allocation
alignment, delegate to the mapped size class if that fits the largest
class, otherwise to the page supplier. -/
def specClaimRoute (L : Nat) (idx : Nat → Nat) (size : Nat) : Route :=
  if alignUp size ALLOC_ALIGNMENT ≤ L then .slab (idx (alignUp size ALLOC_ALIGNMENT))
  else .pool size

/-- States reachable from a freshly initialized allocator by contract
abiding call sequences: any number of `Allocate` calls and of `Deallocate`
calls on currently live slots.  The supplier initially holds any set of
distinct, positive, page-aligned base addresses. -/
inductive Reach (P z : Nat) : PageAllocator → Prop where
  | init (supply : List Nat) (mem : Nat → Nat)
      (hsup : ∀ b ∈ supply, b % P = 0 ∧ 0 < b) (hnd : supply.Nodup) :
      Reach P z (initState z supply mem)
  | alloc {s s' : PageAllocator} {r : Option Nat} (hs : Reach P z s)
      (h : PageAllocator.Allocate P s = .ok (s', r)) : Reach P z s'
  | dealloc {s s' : PageAllocator} {a : Nat} (hs : Reach P z s) (ha : a ∈ s.live)
      (h : PageAllocator.Deallocate P s a = .ok s') : Reach P z s'

/-- Invariant of the allocator at the boundary between operations, except
that `free < total` is weakened to `free ≤ total` so that it also covers
the intermediate state inside `Allocate` in which a freshly initialized
page is linked but no slot has been taken from it yet. -/
structure MidInv (P z : Nat) (s : PageAllocator) : Prop where
  slotSizeEq : s.slotSize = z
  strideEq : s.slotAlignment = strideOf z
  basesNodup : (s.pages.map Page.base).Nodup
  basesAligned : ∀ p ∈ s.pages, p.base % P = 0 ∧ 0 < p.base
  supplyAligned : ∀ b ∈ s.supply, b % P = 0 ∧ 0 < b
  supplyFresh : ∀ b ∈ s.supply, b ∉ s.pages.map Page.base
  supplyNodup : s.supply.Nodup
  totalPagesEq : s.totalPages = s.pages.length % 2 ^ 32
  pageTotal : ∀ p ∈ s.pages, p.total = numSlots P (strideOf z)
  freeLen : ∀ p ∈ s.pages, p.free = p.header.length
  freeLe : ∀ p ∈ s.pages, p.free ≤ p.total
  headerSub : ∀ p ∈ s.pages, ∀ a ∈ p.header, a ∈ slotAddrs P (strideOf z) p.base
  headerNodup : ∀ p ∈ s.pages, p.header.Nodup
  nonFullMem : ∀ b ∈ s.nonFull, ∃ p, p ∈ s.pages ∧ p.base = b
  nonFullNodup : s.nonFull.Nodup
  nonFullIff : ∀ p ∈ s.pages, (p.base ∈ s.nonFull ↔ p.free ≠ 0)
  liveNodup : s.live.Nodup
  liveInPages : ∀ a ∈ s.live, ∃ p, p ∈ s.pages ∧ a ∈ slotAddrs P (strideOf z) p.base ∧ a ∉ p.header
  slotPartition : ∀ p ∈ s.pages, ∀ a ∈ slotAddrs P (strideOf z) p.base, a ∈ p.header ∨ a ∈ s.live

/-- Invariant of the allocator at the boundary between operations: `MidInv`
together with strictness of the free count (no fully idle page persists). -/
structure Inv (P z : Nat) (s : PageAllocator) extends MidInv P z s : Prop where
  freeLt : ∀ p ∈ s.pages, p.free < p.total

theorem offset_eq : alignUp sizeofPage ALLOC_ALIGNMENT = 32 := rfl

theorem strideOf_eq {z : Nat} (hz : z + 7 < 2 ^ 16) : strideOf z = (z + 7) / 8 * 8 := by
  have h2 : (z + 7) / 8 * 8 ≤ z + 7 := Nat.div_mul_le_self _ _
  unfold strideOf alignUp ALLOC_ALIGNMENT
  have h1 : z + 8 - 1 = z + 7 := rfl
  rw [h1, Nat.mod_eq_of_lt (lt_of_le_of_lt h2 hz)]

theorem stride_facts {P z : Nat} (hG : GoodParams P z) :
    8 ≤ strideOf z ∧ z ≤ strideOf z ∧ 8 ∣ strideOf z := by
  obtain ⟨hz, hz16, _, _, _⟩ := hG
  rw [strideOf_eq hz16]
  refine ⟨by omega, by omega, ⟨(z + 7) / 8, by ring⟩⟩

theorem numSlots_pos {P z : Nat} (hG : GoodParams P z) : 1 ≤ numSlots P (strideOf z) := by
  have hsf := stride_facts hG
  obtain ⟨hz, hz16, hP, -, -⟩ := hG
  have ht : 0 < strideOf z := by omega
  unfold numSlots
  rw [offset_eq, Nat.one_le_div_iff ht]
  omega

theorem numSlots_mul_le {P z : Nat} : numSlots P (strideOf z) * strideOf z ≤ P - 32 := by
  unfold numSlots
  rw [offset_eq]
  exact Nat.div_mul_le_self _ _

theorem mem_slotAddrs {P t b x : Nat} :
    x ∈ slotAddrs P t b ↔ ∃ k, k < numSlots P t ∧ x = b + 32 + k * t := by
  unfold slotAddrs
  rw [offset_eq]
  simp only [List.mem_map, List.mem_range]
  constructor
  · rintro ⟨k, hk, rfl⟩; exact ⟨k, hk, rfl⟩
  · rintro ⟨k, hk, rfl⟩; exact ⟨k, hk, rfl⟩

theorem slotAddrs_nodup {P t b : Nat} (ht : 0 < t) : (slotAddrs P t b).Nodup := by
  unfold slotAddrs
  refine List.Nodup.map ?_ (List.nodup_range _)
  intro k1 k2 h
  dsimp only at h
  have h2 : k1 * t = k2 * t := by omega
  exact Nat.eq_of_mul_eq_mul_right ht h2

theorem slotAddrs_length {P t b : Nat} : (slotAddrs P t b).length = numSlots P t := by
  simp [slotAddrs]

theorem slotAddr_bounds {P z b x : Nat} (hG : GoodParams P z)
    (hx : x ∈ slotAddrs P (strideOf z) b) : b + 32 ≤ x ∧ x + strideOf z ≤ b + P := by
  obtain ⟨k, hk, rfl⟩ := mem_slotAddrs.1 hx
  have h1 : (k + 1) * strideOf z ≤ numSlots P (strideOf z) * strideOf z :=
    Nat.mul_le_mul_right _ (by omega)
  have h2 := numSlots_mul_le (P := P) (z := z)
  have h3 : 32 ≤ P := by have := hG.2.2.1; omega
  constructor
  · omega
  · have : (k + 1) * strideOf z = k * strideOf z + strideOf z := by ring
    omega

theorem slotAddr_align {P z b x : Nat} (hG : GoodParams P z) (hb : 8 ∣ b)
    (hx : x ∈ slotAddrs P (strideOf z) b) : x % 8 = 0 := by
  obtain ⟨k, _, rfl⟩ := mem_slotAddrs.1 hx
  have h8 := (stride_facts hG).2.2
  obtain ⟨c, hc⟩ := h8
  obtain ⟨d, hd⟩ := hb
  have : b + 32 + k * strideOf z = 8 * (d + 4 + k * c) := by rw [hc, hd]; ring
  omega

theorem base_separation {P b1 b2 : Nat} (hP : 0 < P) (h1 : b1 % P = 0) (h2 : b2 % P = 0)
    (hne : b1 ≠ b2) : b1 + P ≤ b2 ∨ b2 + P ≤ b1 := by
  obtain ⟨q1, rfl⟩ := Nat.dvd_of_mod_eq_zero h1
  obtain ⟨q2, rfl⟩ := Nat.dvd_of_mod_eq_zero h2
  rcases Nat.lt_trichotomy q1 q2 with h | h | h
  · left
    have : P * (q1 + 1) ≤ P * q2 := Nat.mul_le_mul_left _ (by omega)
    calc P * q1 + P = P * (q1 + 1) := by ring
      _ ≤ P * q2 := this
  · exact absurd (by rw [h]) hne
  · right
    have : P * (q2 + 1) ≤ P * q1 := Nat.mul_le_mul_left _ (by omega)
    calc P * q2 + P = P * (q2 + 1) := by ring
      _ ≤ P * q1 := this

theorem pageSize_pos {P z : Nat} (hG : GoodParams P z) : 0 < P := by
  have := hG.2.2.1; omega

theorem slotAddrs_disjoint {P z b1 b2 x : Nat} (hG : GoodParams P z)
    (h1 : b1 % P = 0) (h2 : b2 % P = 0) (hne : b1 ≠ b2)
    (hx1 : x ∈ slotAddrs P (strideOf z) b1) : x ∉ slotAddrs P (strideOf z) b2 := by
  intro hx2
  have hb1 := slotAddr_bounds hG hx1
  have hb2 := slotAddr_bounds hG hx2
  have ht : 0 < strideOf z := lt_of_lt_of_le (by norm_num) (stride_facts hG).1
  rcases base_separation (pageSize_pos hG) h1 h2 hne with h | h <;> omega

theorem alignDown_recover {P b x : Nat} (hP : 0 < P) (hb : b % P = 0)
    (hbx : b ≤ x) (hxb : x < b + P) : alignDown x P = b := by
  obtain ⟨q, rfl⟩ := Nat.dvd_of_mod_eq_zero hb
  have hx : x = P * q + (x - P * q) := by omega
  unfold alignDown
  rw [hx, Nat.mul_add_div hP, Nat.div_eq_of_lt (by omega), Nat.add_zero, Nat.mul_comm]

theorem findPage_some {ps : List Page} {p : Page}
    (hnd : (ps.map Page.base).Nodup) (hp : p ∈ ps) : findPage ps p.base = some p := by
  induction ps with
  | nil => cases hp
  | cons q ps ih =>
    have hnd2 := List.nodup_cons.1 (show (q.base :: ps.map Page.base).Nodup from hnd)
    rcases List.mem_cons.1 hp with rfl | hp2
    · unfold findPage
      simp [List.find?]
    · have hne : q.base ≠ p.base := by
        intro h
        exact hnd2.1 (h ▸ List.mem_map_of_mem Page.base hp2)
      have hb : (q.base == p.base) = false := by simp [hne]
      unfold findPage at *
      simp only [List.find?, hb]
      exact ih hnd2.2 hp2

theorem findPage_mem {ps : List Page} {b : Nat} {p : Page}
    (h : findPage ps b = some p) : p ∈ ps ∧ p.base = b := by
  refine ⟨List.mem_of_find?_eq_some h, ?_⟩
  have := List.find?_some h
  simpa using this

theorem base_inj {ps : List Page} {p q : Page} (hnd : (ps.map Page.base).Nodup)
    (hp : p ∈ ps) (hq : q ∈ ps) (h : p.base = q.base) : p = q :=
  List.inj_on_of_nodup_map hnd hp hq h

theorem setPage_map_base {ps : List Page} {b : Nat} {pg : Page} (hb : pg.base = b) :
    (setPage ps b pg).map Page.base = ps.map Page.base := by
  induction ps with
  | nil => rfl
  | cons q ps ih =>
    unfold setPage at *
    simp only [List.map_cons]
    by_cases h : q.base = b
    · rw [if_pos h, ih, hb, h]
    · rw [if_neg h, ih]

theorem setPage_length {ps : List Page} {b : Nat} {pg : Page} :
    (setPage ps b pg).length = ps.length := by
  simp [setPage]

theorem mem_setPage {ps : List Page} {b : Nat} {pg q : Page} (h : q ∈ setPage ps b pg) :
    q = pg ∨ (q ∈ ps ∧ q.base ≠ b) := by
  unfold setPage at h
  obtain ⟨p, hp, hpq⟩ := List.mem_map.1 h
  by_cases hc : p.base = b
  · rw [if_pos hc] at hpq; exact Or.inl hpq.symm
  · rw [if_neg hc] at hpq; exact Or.inr ⟨hpq ▸ hp, hpq ▸ hc⟩

theorem mem_setPage_of_ne {ps : List Page} {b : Nat} {pg q : Page}
    (hq : q ∈ ps) (hne : q.base ≠ b) : q ∈ setPage ps b pg := by
  unfold setPage
  exact List.mem_map.2 ⟨q, hq, by rw [if_neg hne]⟩

theorem self_mem_setPage {ps : List Page} {b : Nat} {pg p : Page}
    (hp : p ∈ ps) (hb : p.base = b) : pg ∈ setPage ps b pg := by
  unfold setPage
  exact List.mem_map.2 ⟨p, hp, by rw [if_pos hb]⟩

theorem mem_removePage {ps : List Page} {b : Nat} {q : Page} :
    q ∈ removePage ps b ↔ q ∈ ps ∧ q.base ≠ b := by
  unfold removePage
  simp [List.mem_filter]

theorem removePage_sublist {ps : List Page} {b : Nat} : List.Sublist (removePage ps b) ps :=
  List.filter_sublist _

theorem removePage_length {ps : List Page} {b : Nat} {p : Page}
    (hnd : (ps.map Page.base).Nodup) (hp : p ∈ ps) (hb : p.base = b) :
    (removePage ps b).length + 1 = ps.length := by
  induction ps with
  | nil => cases hp
  | cons q ps ih =>
    have hnd2 := List.nodup_cons.1 (show (q.base :: ps.map Page.base).Nodup from hnd)
    rcases List.mem_cons.1 hp with rfl | hp2
    · unfold removePage
      simp only [List.filter_cons]
      rw [if_neg (by simp [hb])]
      have hkeep : ∀ r ∈ ps, r.base ≠ b := by
        intro r hr h
        rw [← hb] at h
        exact hnd2.1 (h ▸ List.mem_map_of_mem Page.base hr)
      have hall : ps.filter (fun p => p.base != b) = ps := by
        apply List.filter_eq_self.2
        intro r hr
        simpa using hkeep r hr
      simp [hall]
    · unfold removePage at *
      simp only [List.filter_cons]
      by_cases hq : q.base = b
      · exfalso
        apply hnd2.1
        rw [hq, ← hb]
        exact List.mem_map_of_mem Page.base hp2
      · rw [if_pos (by simpa using hq)]
        have := ih hnd2.2 hp2
        simpa using this

theorem covered_of_subset_of_length {l L : List Nat} (hnd : l.Nodup) (hsub : l ⊆ L)
    (hlen : L.length ≤ l.length) {x : Nat} (hx : x ∈ L) : x ∈ l := by
  have hsp := List.subperm_of_subset hnd hsub
  have hperm := hsp.perm_of_length_le hlen
  exact hperm.mem_iff.2 hx

theorem afh_spec {P z : Nat} {s1 : PageAllocator} {b : Nat} {nf : List Nat}
    (hG : GoodParams P z) (hM : MidInv P z s1)
    (hnf : s1.nonFull = b :: nf)
    (hstrict : ∀ p ∈ s1.pages, p.base = b ∨ p.free < p.total) :
    ∃ s' a, allocateFromHead P s1 = .ok (s', some a) ∧ Inv P z s' ∧
      a ∈ slotAddrs P (strideOf z) b ∧
      s'.mem = memsetZero s1.mem a z ∧ s'.supply = s1.supply ∧ s'.live = a :: s1.live ∧
      s'.pages.length = s1.pages.length ∧ s'.totalPages = s1.totalPages := by
  obtain ⟨pg, hpg, hpgb⟩ := hM.nonFullMem b (by rw [hnf]; exact List.mem_cons_self b nf)
  have hbmem : pg.base ∈ s1.nonFull := by rw [hpgb, hnf]; exact List.mem_cons_self b nf
  have hfree : pg.free ≠ 0 := (hM.nonFullIff pg hpg).1 hbmem
  have hflen := hM.freeLen pg hpg
  obtain ⟨a, tl, hheader⟩ : ∃ a tl, pg.header = a :: tl := by
    cases hh : pg.header with
    | nil => rw [hh] at hflen; simp at hflen; exact absurd hflen hfree
    | cons a tl => exact ⟨a, tl, rfl⟩
  have hfind : findPage s1.pages b = some pg := hpgb ▸ findPage_some hM.basesNodup hpg
  have htot := hM.pageTotal pg hpg
  have hle := hM.freeLe pg hpg
  have hm16 := hG.2.2.2.2
  have hm1 := numSlots_pos hG
  have hdec : (pg.free + (2 ^ 16 - 1)) % 2 ^ 16 = pg.free - 1 := by omega
  have hPA : Page.Allocate pg = (some a, { pg with header := tl, free := pg.free - 1 }) := by
    simp only [Page.Allocate, hheader, hdec]
  have htllen : tl.length = pg.free - 1 := by
    rw [hheader] at hflen; simp at hflen; omega
  have haslot : a ∈ slotAddrs P (strideOf z) pg.base :=
    hM.headerSub pg hpg a (by rw [hheader]; exact List.mem_cons_self a tl)
  have hpgal := hM.basesAligned pg hpg
  have hnotlive : a ∉ s1.live := by
    intro hal
    obtain ⟨q, hq, hqs, hqh⟩ := hM.liveInPages a hal
    by_cases hqb : q.base = pg.base
    · have hqpg : q = pg := base_inj hM.basesNodup hq hpg hqb
      rw [hqpg, hheader] at hqh
      exact hqh (List.mem_cons_self a tl)
    · have hqal := hM.basesAligned q hq
      exact slotAddrs_disjoint hG hpgal.1 hqal.1 (fun h => hqb h.symm) haslot hqs
  have hhnd := hM.headerNodup pg hpg
  rw [hheader] at hhnd
  have hhnd2 := List.nodup_cons.1 hhnd
  have hnfnd := hM.nonFullNodup
  rw [hnf] at hnfnd
  have hnfnd2 := List.nodup_cons.1 hnfnd
  -- the popped page
  have hmapbase : (setPage s1.pages b { pg with header := tl, free := pg.free - 1 }).map
      Page.base = s1.pages.map Page.base :=
    setPage_map_base (by exact hpgb)
  have hpg'mem : ({ pg with header := tl, free := pg.free - 1 } : Page) ∈
      setPage s1.pages b { pg with header := tl, free := pg.free - 1 } :=
    self_mem_setPage hpg hpgb
  -- facts shared by both branches about the updated page list
  have hpagesNodup : ((setPage s1.pages b { pg with header := tl, free := pg.free - 1 }).map
      Page.base).Nodup := by rw [hmapbase]; exact hM.basesNodup
  have hcases : ∀ q ∈ setPage s1.pages b { pg with header := tl, free := pg.free - 1 },
      q = { pg with header := tl, free := pg.free - 1 } ∨ (q ∈ s1.pages ∧ q.base ≠ b) :=
    fun q hq => mem_setPage hq
  have hlive' : ∀ x ∈ s1.live, ∃ p,
      p ∈ setPage s1.pages b { pg with header := tl, free := pg.free - 1 } ∧
      x ∈ slotAddrs P (strideOf z) p.base ∧ x ∉ p.header := by
    intro x hx
    obtain ⟨q, hq, hqs, hqh⟩ := hM.liveInPages x hx
    by_cases hqb : q.base = b
    · have hqpg : q = pg := base_inj hM.basesNodup hq hpg (by rw [hqb, hpgb])
      refine ⟨{ pg with header := tl, free := pg.free - 1 }, hpg'mem, ?_, ?_⟩
      · rw [hqpg] at hqs; exact hqs
      · rw [hqpg, hheader] at hqh
        intro hxtl
        exact hqh (List.mem_cons_of_mem a hxtl)
    · exact ⟨q, mem_setPage_of_ne hq hqb, hqs, hqh⟩
  have hpart' : ∀ p ∈ setPage s1.pages b { pg with header := tl, free := pg.free - 1 },
      ∀ x ∈ slotAddrs P (strideOf z) p.base, x ∈ p.header ∨ x ∈ a :: s1.live := by
    intro p hp x hxs
    rcases hcases p hp with rfl | ⟨hpold, _⟩
    · rcases hM.slotPartition pg hpg x hxs with hxh | hxl
      · rw [hheader] at hxh
        rcases List.mem_cons.1 hxh with rfl | hxtl
        · exact Or.inr (List.mem_cons_self x s1.live)
        · exact Or.inl hxtl
      · exact Or.inr (List.mem_cons_of_mem a hxl)
    · rcases hM.slotPartition p hpold x hxs with hxh | hxl
      · exact Or.inl hxh
      · exact Or.inr (List.mem_cons_of_mem a hxl)
  by_cases hzero : pg.free - 1 = 0
  · -- the page became full: it is unlinked from nonFull
    have hav : Page.Available { pg with header := tl, free := pg.free - 1 } = false := by
      simp [Page.Available, hzero]
    refine ⟨{ s1 with
              pages := setPage s1.pages b { pg with header := tl, free := pg.free - 1 }
              nonFull := RemoveFromList s1.nonFull b
              mem := memsetZero s1.mem a s1.slotSize
              live := a :: s1.live }, a, ?_, ?_, by rw [← hpgb]; exact haslot,
            by simp [hM.slotSizeEq], rfl, rfl, by simp [setPage_length], rfl⟩
    · simp only [allocateFromHead, hnf, hfind, hPA, hav]
      rfl
    · have hrb : RemoveFromList s1.nonFull b = nf := by
        unfold RemoveFromList
        rw [hnf]
        exact List.erase_cons_head b nf
      refine { toMidInv := ?_, freeLt := ?_ }
      · refine { slotSizeEq := hM.slotSizeEq, strideEq := hM.strideEq,
                 basesNodup := hpagesNodup,
                 basesAligned := ?_, supplyAligned := hM.supplyAligned,
                 supplyFresh := ?_, supplyNodup := hM.supplyNodup,
                 totalPagesEq := ?_, pageTotal := ?_, freeLen := ?_, freeLe := ?_,
                 headerSub := ?_, headerNodup := ?_, nonFullMem := ?_, nonFullNodup := ?_,
                 nonFullIff := ?_, liveNodup := ?_, liveInPages := ?_, slotPartition := ?_ }
        · intro p hp
          rcases hcases p hp with rfl | ⟨hpold, _⟩
          · exact hpgal
          · exact hM.basesAligned p hpold
        · intro x hx
          rw [hmapbase]
          exact hM.supplyFresh x hx
        · simp only [setPage_length]
          exact hM.totalPagesEq
        · intro p hp
          rcases hcases p hp with rfl | ⟨hpold, _⟩
          · exact htot
          · exact hM.pageTotal p hpold
        · intro p hp
          rcases hcases p hp with rfl | ⟨hpold, _⟩
          · exact htllen.symm
          · exact hM.freeLen p hpold
        · intro p hp
          rcases hcases p hp with rfl | ⟨hpold, _⟩
          · simp only
            omega
          · exact hM.freeLe p hpold
        · intro p hp
          rcases hcases p hp with rfl | ⟨hpold, _⟩
          · intro x hx
            exact hM.headerSub pg hpg x (by rw [hheader]; exact List.mem_cons_of_mem a hx)
          · exact hM.headerSub p hpold
        · intro p hp
          rcases hcases p hp with rfl | ⟨hpold, _⟩
          · exact hhnd2.2
          · exact hM.headerNodup p hpold
        · intro x hx
          rw [hrb] at hx
          obtain ⟨q, hq, hqb⟩ := hM.nonFullMem x (by rw [hnf]; exact List.mem_cons_of_mem b hx)
          have hxb : x ≠ b := fun h => hnfnd2.1 (h ▸ hx)
          exact ⟨q, mem_setPage_of_ne hq (by rw [hqb]; exact hxb), hqb⟩
        · rw [hrb]
          exact hnfnd2.2
        · intro p hp
          rw [hrb]
          rcases hcases p hp with rfl | ⟨hpold, hpne⟩
          · simp only
            constructor
            · intro hbnf
              exact absurd (hpgb ▸ hbnf) hnfnd2.1
            · intro hne
              exact absurd hzero hne
          · rw [show p.base ∈ nf ↔ p.base ∈ s1.nonFull from
              by rw [hnf]; exact ⟨fun h => List.mem_cons_of_mem b h,
                fun h => (List.mem_cons.1 h).resolve_left hpne⟩]
            exact hM.nonFullIff p hpold
        · exact List.nodup_cons.2 ⟨hnotlive, hM.liveNodup⟩
        · intro x hx
          rcases List.mem_cons.1 hx with rfl | hxl
          · exact ⟨{ pg with header := tl, free := pg.free - 1 }, hpg'mem, haslot, hhnd2.1⟩
          · exact hlive' x hxl
        · exact hpart'
      · intro p hp
        rcases hcases p hp with rfl | ⟨hpold, hpne⟩
        · simp only
          omega
        · exact (hstrict p hpold).resolve_left hpne
  · -- the page still has capacity: nonFull is unchanged
    have hav : Page.Available { pg with header := tl, free := pg.free - 1 } = true := by
      simp [Page.Available, hzero]
    refine ⟨{ s1 with
              pages := setPage s1.pages b { pg with header := tl, free := pg.free - 1 }
              mem := memsetZero s1.mem a s1.slotSize
              live := a :: s1.live }, a, ?_, ?_, by rw [← hpgb]; exact haslot,
            by simp [hM.slotSizeEq], rfl, rfl, by simp [setPage_length], rfl⟩
    · simp only [allocateFromHead, hnf, hfind, hPA, hav]
      rfl
    · refine { toMidInv := ?_, freeLt := ?_ }
      · refine { slotSizeEq := hM.slotSizeEq, strideEq := hM.strideEq,
                 basesNodup := hpagesNodup,
                 basesAligned := ?_, supplyAligned := hM.supplyAligned,
                 supplyFresh := ?_, supplyNodup := hM.supplyNodup,
                 totalPagesEq := ?_, pageTotal := ?_, freeLen := ?_, freeLe := ?_,
                 headerSub := ?_, headerNodup := ?_, nonFullMem := ?_,
                 nonFullNodup := hM.nonFullNodup,
                 nonFullIff := ?_, liveNodup := ?_, liveInPages := ?_, slotPartition := ?_ }
        · intro p hp
          rcases hcases p hp with rfl | ⟨hpold, _⟩
          · exact hpgal
          · exact hM.basesAligned p hpold
        · intro x hx
          rw [hmapbase]
          exact hM.supplyFresh x hx
        · simp only [setPage_length]
          exact hM.totalPagesEq
        · intro p hp
          rcases hcases p hp with rfl | ⟨hpold, _⟩
          · exact htot
          · exact hM.pageTotal p hpold
        · intro p hp
          rcases hcases p hp with rfl | ⟨hpold, _⟩
          · exact htllen.symm
          · exact hM.freeLen p hpold
        · intro p hp
          rcases hcases p hp with rfl | ⟨hpold, _⟩
          · simp only
            omega
          · exact hM.freeLe p hpold
        · intro p hp
          rcases hcases p hp with rfl | ⟨hpold, _⟩
          · intro x hx
            exact hM.headerSub pg hpg x (by rw [hheader]; exact List.mem_cons_of_mem a hx)
          · exact hM.headerSub p hpold
        · intro p hp
          rcases hcases p hp with rfl | ⟨hpold, _⟩
          · exact hhnd2.2
          · exact hM.headerNodup p hpold
        · intro x hx
          obtain ⟨q, hq, hqb⟩ := hM.nonFullMem x hx
          by_cases hxb : x = b
          · exact ⟨{ pg with header := tl, free := pg.free - 1 }, hpg'mem, by rw [hxb, hpgb]⟩
          · exact ⟨q, mem_setPage_of_ne hq (by rw [hqb]; exact hxb), hqb⟩
        · intro p hp
          rcases hcases p hp with rfl | ⟨hpold, hpne⟩
          · simp only
            rw [hpgb]
            constructor
            · intro _; exact hzero
            · intro _
              rw [← hpgb]
              exact hbmem
          · exact hM.nonFullIff p hpold
        · exact List.nodup_cons.2 ⟨hnotlive, hM.liveNodup⟩
        · intro x hx
          rcases List.mem_cons.1 hx with rfl | hxl
          · exact ⟨{ pg with header := tl, free := pg.free - 1 }, hpg'mem, haslot, hhnd2.1⟩
          · exact hlive' x hxl
        · exact hpart'
      · intro p hp
        rcases hcases p hp with rfl | ⟨hpold, hpne⟩
        · simp only
          omega
        · exact (hstrict p hpold).resolve_left hpne

theorem alloc_spec {P z : Nat} {s s' : PageAllocator} {res : Option Nat}
    (hG : GoodParams P z) (hI : Inv P z s)
    (h : PageAllocator.Allocate P s = .ok (s', res)) :
    Inv P z s' ∧ ∃ a, res = some a ∧ a % 8 = 0 ∧ 0 < a ∧
      (∀ i, i < z → s'.mem (a + i) = 0) ∧ s'.live = a :: s.live := by
  have hm16 := hG.2.2.2.2
  have hm1 := numSlots_pos hG
  have h8P := hG.2.2.2.1
  cases hnf : s.nonFull with
  | cons b nf =>
    simp only [PageAllocator.Allocate, hnf] at h
    obtain ⟨s'', a, heq, hInv, haslot, hmem, hsup, hlive, _, _⟩ :=
      afh_spec hG hI.toMidInv hnf (fun p hp => Or.inr (hI.freeLt p hp))
    rw [h] at heq
    obtain ⟨q, hq, hqb⟩ := hI.nonFullMem b (by rw [hnf]; exact List.mem_cons_self b nf)
    have hbal : b % P = 0 ∧ 0 < b := hqb ▸ hI.basesAligned q hq
    have hb8 : 8 ∣ b := dvd_trans h8P (Nat.dvd_of_mod_eq_zero hbal.1)
    have hinj : s' = s'' ∧ res = some a := by
      have h2 := Except.ok.inj heq
      exact ⟨congrArg Prod.fst h2, congrArg Prod.snd h2⟩
    obtain ⟨rfl, rfl⟩ := hinj
    refine ⟨hInv, a, rfl, slotAddr_align hG hb8 haslot, ?_, ?_, hlive⟩
    · have := (slotAddr_bounds hG haslot).1
      omega
    · intro i hi
      rw [hmem]
      unfold memsetZero
      rw [if_pos (by omega)]
  | nil =>
    simp only [PageAllocator.Allocate, hnf] at h
    cases hsup : s.supply with
    | nil =>
      simp only [hsup] at h
      exact Except.noConfusion h
    | cons b rest =>
      simp only [hsup] at h
      have hmod : numSlots P (strideOf z) % 2 ^ 16 = numSlots P (strideOf z) :=
        Nat.mod_eq_of_lt hm16
      have hinit : InitPage P s.slotAlignment b s.mem =
          .ok ({ header := slotAddrs P (strideOf z) b, base := b,
                 total := numSlots P (strideOf z), free := numSlots P (strideOf z) },
               buildLinks s.mem (slotAddrs P (strideOf z) b)) := by
        rw [hI.strideEq]
        dsimp only [InitPage]
        rw [hmod, if_neg (by omega)]
      simp only [hinit] at h
      have hbsup : b ∈ s.supply := by rw [hsup]; exact List.mem_cons_self b rest
      have hbal := hI.supplyAligned b hbsup
      have hbfresh := hI.supplyFresh b hbsup
      have hsupnd := hI.supplyNodup
      rw [hsup] at hsupnd
      have hsupnd2 := List.nodup_cons.1 hsupnd
      have hb8 : 8 ∣ b := dvd_trans h8P (Nat.dvd_of_mod_eq_zero hbal.1)
      have ht8 := stride_facts hG
      have htpos : 0 < strideOf z := by omega
      have hM : MidInv P z
          { s with
            pages := { header := slotAddrs P (strideOf z) b, base := b,
                       total := numSlots P (strideOf z),
                       free := numSlots P (strideOf z) } :: s.pages
            nonFull := [b]
            supply := rest
            totalPages := (s.totalPages + 1) % 2 ^ 32
            mem := buildLinks s.mem (slotAddrs P (strideOf z) b) } := by
        refine { slotSizeEq := hI.slotSizeEq, strideEq := hI.strideEq,
                 basesNodup := ?_, basesAligned := ?_, supplyAligned := ?_,
                 supplyFresh := ?_, supplyNodup := hsupnd2.2,
                 totalPagesEq := ?_, pageTotal := ?_, freeLen := ?_, freeLe := ?_,
                 headerSub := ?_, headerNodup := ?_, nonFullMem := ?_,
                 nonFullNodup := by simp,
                 nonFullIff := ?_, liveNodup := hI.liveNodup,
                 liveInPages := ?_, slotPartition := ?_ }
        · simp only [List.map_cons]
          exact List.nodup_cons.2 ⟨hbfresh, hI.basesNodup⟩
        · intro p hp
          rcases List.mem_cons.1 hp with rfl | hp2
          · exact hbal
          · exact hI.basesAligned p hp2
        · intro x hx
          exact hI.supplyAligned x (by rw [hsup]; exact List.mem_cons_of_mem b hx)
        · intro x hx
          simp only [List.map_cons, List.mem_cons]
          push_neg
          constructor
          · intro hxb
            exact hsupnd2.1 (hxb ▸ hx)
          · exact hI.supplyFresh x (by rw [hsup]; exact List.mem_cons_of_mem b hx)
        · simp only [List.length_cons]
          rw [hI.totalPagesEq]
          omega
        · intro p hp
          rcases List.mem_cons.1 hp with rfl | hp2
          · rfl
          · exact hI.pageTotal p hp2
        · intro p hp
          rcases List.mem_cons.1 hp with rfl | hp2
          · simp only
            rw [slotAddrs_length]
          · exact hI.freeLen p hp2
        · intro p hp
          rcases List.mem_cons.1 hp with rfl | hp2
          · exact le_refl _
          · exact le_of_lt (hI.freeLt p hp2)
        · intro p hp
          rcases List.mem_cons.1 hp with rfl | hp2
          · intro x hx
            exact hx
          · exact hI.headerSub p hp2
        · intro p hp
          rcases List.mem_cons.1 hp with rfl | hp2
          · exact slotAddrs_nodup htpos
          · exact hI.headerNodup p hp2
        · intro x hx
          rcases List.mem_cons.1 hx with rfl | hx2
          · exact ⟨_, List.mem_cons_self _ _, rfl⟩
          · cases hx2
        · intro p hp
          rcases List.mem_cons.1 hp with rfl | hp2
          · simp only [List.mem_singleton]
            constructor
            · intro _
              omega
            · intro _
              trivial
          · have hfz : p.free = 0 := by
              by_contra hfz
              have := (hI.nonFullIff p hp2).2 hfz
              rw [hnf] at this
              cases this
            simp only [List.mem_singleton, hfz]
            constructor
            · intro hpb
              exact absurd (hpb ▸ List.mem_map_of_mem Page.base hp2) hbfresh
            · intro hc
              exact absurd rfl hc
        · intro x hx
          obtain ⟨q, hq, hqs, hqh⟩ := hI.liveInPages x hx
          exact ⟨q, List.mem_cons_of_mem _ hq, hqs, hqh⟩
        · intro p hp
          rcases List.mem_cons.1 hp with rfl | hp2
          · intro x hx
            exact Or.inl hx
          · intro x hx
            exact hI.slotPartition p hp2 x hx
      obtain ⟨s'', a, heq, hInv, haslot, hmem, hsup', hlive, _, _⟩ :=
        afh_spec hG hM rfl (fun p hp => by
          rcases List.mem_cons.1 hp with rfl | hp2
          · exact Or.inl rfl
          · exact Or.inr (hI.freeLt p hp2))
      rw [h] at heq
      have hinj : s' = s'' ∧ res = some a := by
        have h2 := Except.ok.inj heq
        exact ⟨congrArg Prod.fst h2, congrArg Prod.snd h2⟩
      obtain ⟨rfl, rfl⟩ := hinj
      refine ⟨hInv, a, rfl, slotAddr_align hG hb8 haslot, ?_, ?_, hlive⟩
      · have := (slotAddr_bounds hG haslot).1
        omega
      · intro i hi
        rw [hmem]
        unfold memsetZero
        rw [if_pos (by omega)]

theorem if_bool_false {α : Sort*} {b : Bool} (h : b = false) (x y : α) :
    (if b then x else y) = y := by
  rw [h]
  rfl

theorem if_bool_true {α : Sort*} {b : Bool} (h : b = true) (x y : α) :
    (if b then x else y) = x := by
  rw [h]
  rfl

theorem dealloc_spec {P z : Nat} {s : PageAllocator} {a : Nat}
    (hG : GoodParams P z) (hI : Inv P z s) (ha : a ∈ s.live) :
    ∃ pg, pg ∈ s.pages ∧ alignDown a P = pg.base ∧ a ∈ slotAddrs P (strideOf z) pg.base ∧
    ∃ s', PageAllocator.Deallocate P s a = .ok s' ∧ Inv P z s' ∧
      (pg.free + 1 = pg.total →
        pg.base ∉ s'.pages.map Page.base ∧ pg.base ∈ s'.supply ∧ pg.base ∉ s'.nonFull) := by
  obtain ⟨pg, hpg, haslot, hah⟩ := hI.liveInPages a ha
  have hbal := hI.basesAligned pg hpg
  have hsb := slotAddr_bounds hG haslot
  have ht8 := stride_facts hG
  have halign : alignDown a P = pg.base :=
    alignDown_recover (pageSize_pos hG) hbal.1 (by omega) (by omega)
  have hfind : findPage s.pages (alignDown a P) = some pg := by
    rw [halign]
    exact findPage_some hI.basesNodup hpg
  have htot := hI.pageTotal pg hpg
  have hlt := hI.freeLt pg hpg
  have hm16 := hG.2.2.2.2
  have hm1 := numSlots_pos hG
  have hinc : (pg.free + 1) % 2 ^ 16 = pg.free + 1 := by
    apply Nat.mod_eq_of_lt
    omega
  have hflen := hI.freeLen pg hpg
  have hhnd := hI.headerNodup pg hpg
  have hPD1 : (Page.Deallocate pg a s.mem).1
      = { pg with header := a :: pg.header, free := pg.free + 1 } := by
    simp only [Page.Deallocate, hinc]
  have hmapbase : (setPage s.pages pg.base
      { pg with header := a :: pg.header, free := pg.free + 1 }).map Page.base
      = s.pages.map Page.base := setPage_map_base rfl
  have hnodup2 : ((setPage s.pages pg.base
      { pg with header := a :: pg.header, free := pg.free + 1 }).map Page.base).Nodup := by
    rw [hmapbase]
    exact hI.basesNodup
  have hpg'mem : ({ pg with header := a :: pg.header, free := pg.free + 1 } : Page) ∈
      setPage s.pages pg.base { pg with header := a :: pg.header, free := pg.free + 1 } :=
    self_mem_setPage hpg rfl
  have hdisj : ∀ q ∈ s.pages, q.base ≠ pg.base → a ∉ slotAddrs P (strideOf z) q.base := by
    intro q hq hne hmem
    exact slotAddrs_disjoint hG hbal.1 (hI.basesAligned q hq).1 (fun h => hne h.symm)
      haslot hmem
  have hAligned2 : ∀ p ∈ setPage s.pages pg.base
      { pg with header := a :: pg.header, free := pg.free + 1 },
      p.base % P = 0 ∧ 0 < p.base := by
    intro p hp
    rcases mem_setPage hp with rfl | ⟨hpold, _⟩
    · exact hbal
    · exact hI.basesAligned p hpold
  have hTotal2 : ∀ p ∈ setPage s.pages pg.base
      { pg with header := a :: pg.header, free := pg.free + 1 },
      p.total = numSlots P (strideOf z) := by
    intro p hp
    rcases mem_setPage hp with rfl | ⟨hpold, _⟩
    · exact htot
    · exact hI.pageTotal p hpold
  have hFreeLen2 : ∀ p ∈ setPage s.pages pg.base
      { pg with header := a :: pg.header, free := pg.free + 1 },
      p.free = p.header.length := by
    intro p hp
    rcases mem_setPage hp with rfl | ⟨hpold, _⟩
    · simp only [List.length_cons]
      omega
    · exact hI.freeLen p hpold
  have hHeaderSub2 : ∀ p ∈ setPage s.pages pg.base
      { pg with header := a :: pg.header, free := pg.free + 1 },
      ∀ x ∈ p.header, x ∈ slotAddrs P (strideOf z) p.base := by
    intro p hp
    rcases mem_setPage hp with rfl | ⟨hpold, _⟩
    · intro x hx
      rcases List.mem_cons.1 hx with rfl | hx2
      · exact haslot
      · exact hI.headerSub pg hpg x hx2
    · exact hI.headerSub p hpold
  have hHeaderNodup2 : ∀ p ∈ setPage s.pages pg.base
      { pg with header := a :: pg.header, free := pg.free + 1 },
      p.header.Nodup := by
    intro p hp
    rcases mem_setPage hp with rfl | ⟨hpold, _⟩
    · exact List.nodup_cons.2 ⟨hah, hhnd⟩
    · exact hI.headerNodup p hpold
  have hLiveNodup2 : (s.live.erase a).Nodup := hI.liveNodup.erase a
  have hLiveIn2 : ∀ x ∈ s.live.erase a, ∃ p,
      p ∈ setPage s.pages pg.base { pg with header := a :: pg.header, free := pg.free + 1 } ∧
      x ∈ slotAddrs P (strideOf z) p.base ∧ x ∉ p.header := by
    intro x hx
    have hxa : x ≠ a := ((hI.liveNodup.mem_erase_iff).1 hx).1
    have hxl := List.mem_of_mem_erase hx
    obtain ⟨q, hq, hqs, hqh⟩ := hI.liveInPages x hxl
    by_cases hqb : q.base = pg.base
    · have hqpg : q = pg := base_inj hI.basesNodup hq hpg hqb
      subst hqpg
      refine ⟨{ q with header := a :: q.header, free := q.free + 1 }, hpg'mem, hqs, ?_⟩
      intro hc
      rcases List.mem_cons.1 hc with rfl | hc2
      · exact hxa rfl
      · exact hqh hc2
    · exact ⟨q, mem_setPage_of_ne hq hqb, hqs, hqh⟩
  have hPart2 : ∀ p ∈ setPage s.pages pg.base
      { pg with header := a :: pg.header, free := pg.free + 1 },
      ∀ x ∈ slotAddrs P (strideOf z) p.base, x ∈ p.header ∨ x ∈ s.live.erase a := by
    intro p hp x hxs
    rcases mem_setPage hp with rfl | ⟨hpold, hpne⟩
    · rcases hI.slotPartition pg hpg x hxs with hxh | hxl
      · exact Or.inl (List.mem_cons_of_mem a hxh)
      · by_cases hxa : x = a
        · exact Or.inl (by rw [hxa]; exact List.mem_cons_self a pg.header)
        · exact Or.inr ((List.mem_erase_of_ne hxa).2 hxl)
    · rcases hI.slotPartition p hpold x hxs with hxh | hxl
      · exact Or.inl hxh
      · have hxa : x ≠ a := by
          intro hxaeq
          exact hdisj p hpold hpne (hxaeq ▸ hxs)
        exact Or.inr ((List.mem_erase_of_ne hxa).2 hxl)
  refine ⟨pg, hpg, halign, haslot, ?_⟩
  by_cases hav : pg.free = 0
  · have hava : Page.Available pg = false := by simp [Page.Available, hav]
    have hbnot : pg.base ∉ s.nonFull := by
      intro hm
      exact (hI.nonFullIff pg hpg).1 hm hav
    by_cases hempty : pg.free + 1 = pg.total
    · -- page becomes idle and is destroyed; it was full so it was re-linked first
      have hempB : Page.Empty
          ({ pg with header := a :: pg.header, free := pg.free + 1 } : Page) = true := by
        simp [Page.Empty, hempty]
      have herase0 : RemoveFromList (AddToList s.nonFull pg.base) pg.base = s.nonFull := by
        unfold RemoveFromList AddToList
        exact List.erase_cons_head _ _
      have hsat : ∀ x ∈ slotAddrs P (strideOf z) pg.base, x ∈ a :: pg.header := by
        intro x hx
        refine covered_of_subset_of_length (List.nodup_cons.2 ⟨hah, hhnd⟩) ?_ ?_ hx
        · intro y hy
          rcases List.mem_cons.1 hy with rfl | hy2
          · exact haslot
          · exact hI.headerSub pg hpg y hy2
        · rw [slotAddrs_length]
          simp only [List.length_cons]
          omega
      have hliveNotPg : ∀ x ∈ s.live.erase a, x ∉ slotAddrs P (strideOf z) pg.base := by
        intro x hx hxs
        have hxa : x ≠ a := ((hI.liveNodup.mem_erase_iff).1 hx).1
        have hxl := List.mem_of_mem_erase hx
        obtain ⟨q, hq, hqs, hqh⟩ := hI.liveInPages x hxl
        by_cases hqb : q.base = pg.base
        · have hqpg : q = pg := base_inj hI.basesNodup hq hpg hqb
          subst hqpg
          rcases List.mem_cons.1 (hsat x hxs) with rfl | hc2
          · exact hxa rfl
          · exact hqh hc2
        · exact slotAddrs_disjoint hG (hI.basesAligned q hq).1 hbal.1 hqb hqs hxs
      have hrem : ∀ q, q ∈ removePage (setPage s.pages pg.base
          { pg with header := a :: pg.header, free := pg.free + 1 }) pg.base ↔
          (q ∈ s.pages ∧ q.base ≠ pg.base) := by
        intro q
        rw [mem_removePage]
        constructor
        · rintro ⟨hset, hne⟩
          rcases mem_setPage hset with rfl | ⟨hold, _⟩
          · exact absurd rfl hne
          · exact ⟨hold, hne⟩
        · rintro ⟨hold, hne⟩
          exact ⟨mem_setPage_of_ne hold hne, hne⟩
      have hremlen : (removePage (setPage s.pages pg.base
          { pg with header := a :: pg.header, free := pg.free + 1 }) pg.base).length + 1
          = s.pages.length := by
        rw [removePage_length hnodup2 hpg'mem rfl]
        exact setPage_length
      have hremmap : pg.base ∉ (removePage (setPage s.pages pg.base
          { pg with header := a :: pg.header, free := pg.free + 1 }) pg.base).map Page.base := by
        intro hmem
        obtain ⟨q, hq, hqb⟩ := List.mem_map.1 hmem
        exact ((hrem q).1 hq).2 hqb
      have hsupfresh : pg.base ∉ s.supply := by
        intro hmem
        exact hI.supplyFresh pg.base hmem (List.mem_map_of_mem Page.base hpg)
      have hlen1 : 0 < s.pages.length := List.length_pos_of_mem hpg
      refine ⟨{ s with
                nonFull := s.nonFull
                totalPages := (s.totalPages + (2 ^ 32 - 1)) % 2 ^ 32
                pages := removePage (setPage s.pages pg.base
                  { pg with header := a :: pg.header, free := pg.free + 1 }) pg.base
                supply := pg.base :: s.supply
                live := s.live.erase a
                mem := (Page.Deallocate pg a s.mem).2 }, ?_, ?_, ?_⟩
      · simp only [PageAllocator.Deallocate, hfind]
        simp only [halign]
        rw [if_bool_false hava]
        simp only [hPD1]
        rw [if_bool_true hempB]
        rw [if_pos hempty, herase0]
      · refine { toMidInv := ?_, freeLt := ?_ }
        · refine { slotSizeEq := hI.slotSizeEq, strideEq := hI.strideEq,
                   basesNodup := ?_, basesAligned := ?_, supplyAligned := ?_,
                   supplyFresh := ?_, supplyNodup := ?_,
                   totalPagesEq := ?_, pageTotal := ?_, freeLen := ?_, freeLe := ?_,
                   headerSub := ?_, headerNodup := ?_, nonFullMem := ?_,
                   nonFullNodup := hI.nonFullNodup,
                   nonFullIff := ?_, liveNodup := hLiveNodup2,
                   liveInPages := ?_, slotPartition := ?_ }
          · exact (removePage_sublist.map Page.base).nodup hnodup2
          · intro p hp
            exact hAligned2 p (mem_removePage.1 hp).1
          · intro x hx
            rcases List.mem_cons.1 hx with rfl | hx2
            · exact hbal
            · exact hI.supplyAligned x hx2
          · intro x hx
            rcases List.mem_cons.1 hx with rfl | hx2
            · exact hremmap
            · intro hmem
              obtain ⟨q, hq, hqb⟩ := List.mem_map.1 hmem
              have hqold := ((hrem q).1 hq).1
              exact hI.supplyFresh x hx2 (hqb ▸ List.mem_map_of_mem Page.base hqold)
          · exact List.nodup_cons.2 ⟨hsupfresh, hI.supplyNodup⟩
          · simp only
            rw [hI.totalPagesEq]
            omega
          · intro p hp
            exact hTotal2 p (mem_removePage.1 hp).1
          · intro p hp
            exact hFreeLen2 p (mem_removePage.1 hp).1
          · intro p hp
            have hold := ((hrem p).1 hp).1
            exact le_of_lt (hI.freeLt p hold)
          · intro p hp
            exact hHeaderSub2 p (mem_removePage.1 hp).1
          · intro p hp
            exact hHeaderNodup2 p (mem_removePage.1 hp).1
          · intro x hx
            obtain ⟨q, hq, hqb⟩ := hI.nonFullMem x hx
            have hne : q.base ≠ pg.base := by
              intro heqb
              have : q = pg := base_inj hI.basesNodup hq hpg heqb
              rw [← hqb, heqb] at hx
              exact hbnot hx
            exact ⟨q, (hrem q).2 ⟨hq, hne⟩, hqb⟩
          · intro p hp
            have hold := (hrem p).1 hp
            exact hI.nonFullIff p hold.1
          · intro x hx
            obtain ⟨q, hq2, hqs, hqh⟩ := hLiveIn2 x hx
            rcases mem_setPage hq2 with rfl | ⟨hold, hne⟩
            · exact absurd hqs (hliveNotPg x hx)
            · exact ⟨q, (hrem q).2 ⟨hold, hne⟩, hqs, hqh⟩
          · intro p hp x hxs
            have hold := (hrem p).1 hp
            rcases hI.slotPartition p hold.1 x hxs with hxh | hxl
            · exact Or.inl hxh
            · have hxa : x ≠ a := by
                intro hxaeq
                exact hdisj p hold.1 hold.2 (hxaeq ▸ hxs)
              exact Or.inr ((List.mem_erase_of_ne hxa).2 hxl)
        · intro p hp
          have hold := (hrem p).1 hp
          exact hI.freeLt p hold.1
      · intro _
        exact ⟨hremmap, List.mem_cons_self _ _, hbnot⟩
    · -- the page was full, is re-linked at the head of nonFull, and stays resident
      have hempB : Page.Empty
          ({ pg with header := a :: pg.header, free := pg.free + 1 } : Page) = false := by
        simp only [Page.Empty]
        simp [hempty]
      refine ⟨{ s with
                nonFull := AddToList s.nonFull pg.base
                pages := setPage s.pages pg.base
                  { pg with header := a :: pg.header, free := pg.free + 1 }
                live := s.live.erase a
                mem := (Page.Deallocate pg a s.mem).2 }, ?_, ?_, ?_⟩
      · simp only [PageAllocator.Deallocate, hfind]
        simp only [halign]
        rw [if_bool_false hava]
        simp only [hPD1]
        rw [if_bool_false hempB]
      · refine { toMidInv := ?_, freeLt := ?_ }
        · refine { slotSizeEq := hI.slotSizeEq, strideEq := hI.strideEq,
                   basesNodup := hnodup2, basesAligned := hAligned2,
                   supplyAligned := hI.supplyAligned,
                   supplyFresh := ?_, supplyNodup := hI.supplyNodup,
                   totalPagesEq := ?_, pageTotal := hTotal2, freeLen := hFreeLen2,
                   freeLe := ?_,
                   headerSub := hHeaderSub2, headerNodup := hHeaderNodup2,
                   nonFullMem := ?_, nonFullNodup := ?_,
                   nonFullIff := ?_, liveNodup := hLiveNodup2,
                   liveInPages := hLiveIn2, slotPartition := hPart2 }
          · intro x hx
            rw [hmapbase]
            exact hI.supplyFresh x hx
          · simp only [setPage_length]
            exact hI.totalPagesEq
          · intro p hp
            rcases mem_setPage hp with rfl | ⟨hpold, _⟩
            · simp only
              omega
            · exact le_of_lt (hI.freeLt p hpold)
          · intro x hx
            rcases List.mem_cons.1 hx with rfl | hx2
            · exact ⟨_, hpg'mem, rfl⟩
            · obtain ⟨q, hq, hqb⟩ := hI.nonFullMem x hx2
              have hne : q.base ≠ pg.base := by
                intro heqb
                have : q = pg := base_inj hI.basesNodup hq hpg heqb
                rw [← hqb, heqb] at hx2
                exact hbnot hx2
              exact ⟨q, mem_setPage_of_ne hq hne, hqb⟩
          · exact List.nodup_cons.2 ⟨hbnot, hI.nonFullNodup⟩
          · intro p hp
            rcases mem_setPage hp with rfl | ⟨hpold, hpne⟩
            · simp only
              constructor
              · intro _
                omega
              · intro _
                exact List.mem_cons_self _ _
            · constructor
              · intro hmem
                rcases List.mem_cons.1 hmem with heqb | hmem2
                · exact absurd heqb hpne
                · exact (hI.nonFullIff p hpold).1 hmem2
              · intro hfz
                exact List.mem_cons_of_mem _ ((hI.nonFullIff p hpold).2 hfz)
        · intro p hp
          rcases mem_setPage hp with rfl | ⟨hpold, _⟩
          · simp only
            omega
          · exact hI.freeLt p hpold
      · intro hc
        exact absurd hc hempty
  · have hava : Page.Available pg = true := by simp [Page.Available, hav]
    have hbmem : pg.base ∈ s.nonFull := (hI.nonFullIff pg hpg).2 hav
    by_cases hempty : pg.free + 1 = pg.total
    · -- page becomes idle and is destroyed; it is unlinked from nonFull
      have hempB : Page.Empty
          ({ pg with header := a :: pg.header, free := pg.free + 1 } : Page) = true := by
        simp [Page.Empty, hempty]
      have hsat : ∀ x ∈ slotAddrs P (strideOf z) pg.base, x ∈ a :: pg.header := by
        intro x hx
        refine covered_of_subset_of_length (List.nodup_cons.2 ⟨hah, hhnd⟩) ?_ ?_ hx
        · intro y hy
          rcases List.mem_cons.1 hy with rfl | hy2
          · exact haslot
          · exact hI.headerSub pg hpg y hy2
        · rw [slotAddrs_length]
          simp only [List.length_cons]
          omega
      have hliveNotPg : ∀ x ∈ s.live.erase a, x ∉ slotAddrs P (strideOf z) pg.base := by
        intro x hx hxs
        have hxa : x ≠ a := ((hI.liveNodup.mem_erase_iff).1 hx).1
        have hxl := List.mem_of_mem_erase hx
        obtain ⟨q, hq, hqs, hqh⟩ := hI.liveInPages x hxl
        by_cases hqb : q.base = pg.base
        · have hqpg : q = pg := base_inj hI.basesNodup hq hpg hqb
          subst hqpg
          rcases List.mem_cons.1 (hsat x hxs) with rfl | hc2
          · exact hxa rfl
          · exact hqh hc2
        · exact slotAddrs_disjoint hG (hI.basesAligned q hq).1 hbal.1 hqb hqs hxs
      have hrem : ∀ q, q ∈ removePage (setPage s.pages pg.base
          { pg with header := a :: pg.header, free := pg.free + 1 }) pg.base ↔
          (q ∈ s.pages ∧ q.base ≠ pg.base) := by
        intro q
        rw [mem_removePage]
        constructor
        · rintro ⟨hset, hne⟩
          rcases mem_setPage hset with rfl | ⟨hold, _⟩
          · exact absurd rfl hne
          · exact ⟨hold, hne⟩
        · rintro ⟨hold, hne⟩
          exact ⟨mem_setPage_of_ne hold hne, hne⟩
      have hremlen : (removePage (setPage s.pages pg.base
          { pg with header := a :: pg.header, free := pg.free + 1 }) pg.base).length + 1
          = s.pages.length := by
        rw [removePage_length hnodup2 hpg'mem rfl]
        exact setPage_length
      have hremmap : pg.base ∉ (removePage (setPage s.pages pg.base
          { pg with header := a :: pg.header, free := pg.free + 1 }) pg.base).map Page.base := by
        intro hmem
        obtain ⟨q, hq, hqb⟩ := List.mem_map.1 hmem
        exact ((hrem q).1 hq).2 hqb
      have hsupfresh : pg.base ∉ s.supply := by
        intro hmem
        exact hI.supplyFresh pg.base hmem (List.mem_map_of_mem Page.base hpg)
      have hlen1 : 0 < s.pages.length := List.length_pos_of_mem hpg
      refine ⟨{ s with
                nonFull := RemoveFromList s.nonFull pg.base
                totalPages := (s.totalPages + (2 ^ 32 - 1)) % 2 ^ 32
                pages := removePage (setPage s.pages pg.base
                  { pg with header := a :: pg.header, free := pg.free + 1 }) pg.base
                supply := pg.base :: s.supply
                live := s.live.erase a
                mem := (Page.Deallocate pg a s.mem).2 }, ?_, ?_, ?_⟩
      · simp only [PageAllocator.Deallocate, hfind]
        simp only [halign]
        rw [if_bool_true hava]
        simp only [hPD1]
        rw [if_bool_true hempB]
        rw [if_pos hempty]
      · refine { toMidInv := ?_, freeLt := ?_ }
        · refine { slotSizeEq := hI.slotSizeEq, strideEq := hI.strideEq,
                   basesNodup := ?_, basesAligned := ?_, supplyAligned := ?_,
                   supplyFresh := ?_, supplyNodup := ?_,
                   totalPagesEq := ?_, pageTotal := ?_, freeLen := ?_, freeLe := ?_,
                   headerSub := ?_, headerNodup := ?_, nonFullMem := ?_,
                   nonFullNodup := ?_,
                   nonFullIff := ?_, liveNodup := hLiveNodup2,
                   liveInPages := ?_, slotPartition := ?_ }
          · exact (removePage_sublist.map Page.base).nodup hnodup2
          · intro p hp
            exact hAligned2 p (mem_removePage.1 hp).1
          · intro x hx
            rcases List.mem_cons.1 hx with rfl | hx2
            · exact hbal
            · exact hI.supplyAligned x hx2
          · intro x hx
            rcases List.mem_cons.1 hx with rfl | hx2
            · exact hremmap
            · intro hmem
              obtain ⟨q, hq, hqb⟩ := List.mem_map.1 hmem
              have hqold := ((hrem q).1 hq).1
              exact hI.supplyFresh x hx2 (hqb ▸ List.mem_map_of_mem Page.base hqold)
          · exact List.nodup_cons.2 ⟨hsupfresh, hI.supplyNodup⟩
          · simp only
            rw [hI.totalPagesEq]
            omega
          · intro p hp
            exact hTotal2 p (mem_removePage.1 hp).1
          · intro p hp
            exact hFreeLen2 p (mem_removePage.1 hp).1
          · intro p hp
            have hold := ((hrem p).1 hp).1
            exact le_of_lt (hI.freeLt p hold)
          · intro p hp
            exact hHeaderSub2 p (mem_removePage.1 hp).1
          · intro p hp
            exact hHeaderNodup2 p (mem_removePage.1 hp).1
          · intro x hx
            have hx2 := (hI.nonFullNodup.mem_erase_iff).1 hx
            obtain ⟨q, hq, hqb⟩ := hI.nonFullMem x hx2.2
            have hne : q.base ≠ pg.base := by
              rw [hqb]
              exact hx2.1
            exact ⟨q, (hrem q).2 ⟨hq, hne⟩, hqb⟩
          · exact hI.nonFullNodup.erase pg.base
          · intro p hp
            have hold := (hrem p).1 hp
            unfold RemoveFromList
            rw [List.mem_erase_of_ne hold.2]
            exact hI.nonFullIff p hold.1
          · intro x hx
            obtain ⟨q, hq2, hqs, hqh⟩ := hLiveIn2 x hx
            rcases mem_setPage hq2 with rfl | ⟨hold, hne⟩
            · exact absurd hqs (hliveNotPg x hx)
            · exact ⟨q, (hrem q).2 ⟨hold, hne⟩, hqs, hqh⟩
          · intro p hp x hxs
            have hold := (hrem p).1 hp
            rcases hI.slotPartition p hold.1 x hxs with hxh | hxl
            · exact Or.inl hxh
            · have hxa : x ≠ a := by
                intro hxaeq
                exact hdisj p hold.1 hold.2 (hxaeq ▸ hxs)
              exact Or.inr ((List.mem_erase_of_ne hxa).2 hxl)
        · intro p hp
          have hold := (hrem p).1 hp
          exact hI.freeLt p hold.1
      · intro _
        exact ⟨hremmap, List.mem_cons_self _ _, hI.nonFullNodup.not_mem_erase⟩
    · -- the page had capacity, stays in nonFull, and stays resident
      have hempB : Page.Empty
          ({ pg with header := a :: pg.header, free := pg.free + 1 } : Page) = false := by
        simp only [Page.Empty]
        simp [hempty]
      refine ⟨{ s with
                pages := setPage s.pages pg.base
                  { pg with header := a :: pg.header, free := pg.free + 1 }
                live := s.live.erase a
                mem := (Page.Deallocate pg a s.mem).2 }, ?_, ?_, ?_⟩
      · simp only [PageAllocator.Deallocate, hfind]
        simp only [halign]
        rw [if_bool_true hava]
        simp only [hPD1]
        rw [if_bool_false hempB]
      · refine { toMidInv := ?_, freeLt := ?_ }
        · refine { slotSizeEq := hI.slotSizeEq, strideEq := hI.strideEq,
                   basesNodup := hnodup2, basesAligned := hAligned2,
                   supplyAligned := hI.supplyAligned,
                   supplyFresh := ?_, supplyNodup := hI.supplyNodup,
                   totalPagesEq := ?_, pageTotal := hTotal2, freeLen := hFreeLen2,
                   freeLe := ?_,
                   headerSub := hHeaderSub2, headerNodup := hHeaderNodup2,
                   nonFullMem := ?_, nonFullNodup := hI.nonFullNodup,
                   nonFullIff := ?_, liveNodup := hLiveNodup2,
                   liveInPages := hLiveIn2, slotPartition := hPart2 }
          · intro x hx
            rw [hmapbase]
            exact hI.supplyFresh x hx
          · simp only [setPage_length]
            exact hI.totalPagesEq
          · intro p hp
            rcases mem_setPage hp with rfl | ⟨hpold, _⟩
            · simp only
              omega
            · exact le_of_lt (hI.freeLt p hpold)
          · intro x hx
            obtain ⟨q, hq, hqb⟩ := hI.nonFullMem x hx
            by_cases hne : q.base = pg.base
            · exact ⟨_, hpg'mem, by rw [← hqb, hne]⟩
            · exact ⟨q, mem_setPage_of_ne hq hne, hqb⟩
          · intro p hp
            rcases mem_setPage hp with rfl | ⟨hpold, hpne⟩
            · simp only
              constructor
              · intro _
                omega
              · intro _
                exact hbmem
            · exact hI.nonFullIff p hpold
        · intro p hp
          rcases mem_setPage hp with rfl | ⟨hpold, _⟩
          · simp only
            omega
          · exact hI.freeLt p hpold
      · intro hc
        exact absurd hc hempty

theorem inv_init {P z : Nat} (supply : List Nat) (mem : Nat → Nat)
    (hsup : ∀ b ∈ supply, b % P = 0 ∧ 0 < b) (hnd : supply.Nodup) :
    Inv P z (initState z supply mem) := by
  refine { toMidInv := ?_, freeLt := ?_ }
  · refine { slotSizeEq := rfl, strideEq := rfl,
             basesNodup := List.nodup_nil,
             basesAligned := ?_, supplyAligned := hsup, supplyFresh := ?_,
             supplyNodup := hnd, totalPagesEq := rfl,
             pageTotal := ?_, freeLen := ?_, freeLe := ?_,
             headerSub := ?_, headerNodup := ?_,
             nonFullMem := ?_, nonFullNodup := List.nodup_nil,
             nonFullIff := ?_, liveNodup := List.nodup_nil,
             liveInPages := ?_, slotPartition := ?_ }
    · intro p hp
      cases hp
    · intro b _ hmem
      cases hmem
    · intro p hp
      cases hp
    · intro p hp
      cases hp
    · intro p hp
      cases hp
    · intro p hp
      cases hp
    · intro p hp
      cases hp
    · intro b hb
      cases hb
    · intro p hp
      cases hp
    · intro x hx
      cases hx
    · intro p hp
      cases hp
  · intro p hp
    cases hp

theorem inv_of_reach {P z : Nat} {s : PageAllocator} (hG : GoodParams P z)
    (hr : Reach P z s) : Inv P z s := by
  induction hr with
  | init supply mem hsup hnd => exact inv_init supply mem hsup hnd
  | alloc hs h ih => exact (alloc_spec hG ih h).1
  | dealloc hs ha h ih =>
    obtain ⟨pg, _, _, _, s'', heq, hInv, _⟩ := dealloc_spec hG ih ha
    rw [h] at heq
    exact (Except.ok.inj heq) ▸ hInv

theorem afh_no_initCheck (P : Nat) (s1 : PageAllocator) :
    allocateFromHead P s1 ≠ .error Fault.initCheck := by
  intro h
  unfold allocateFromHead at h
  cases hnf : s1.nonFull with
  | nil =>
    rw [hnf] at h
    exact Fault.noConfusion (Except.error.inj h)
  | cons b nf =>
    rw [hnf] at h
    simp only at h
    cases hfp : findPage s1.pages b with
    | none =>
      rw [hfp] at h
      exact Fault.noConfusion (Except.error.inj h)
    | some pg =>
      rw [hfp] at h
      simp only at h
      cases hres : (Page.Allocate pg).1 with
      | none =>
        rw [hres] at h
        simp only at h
        split at h <;> exact Except.noConfusion h
      | some r =>
        rw [hres] at h
        simp only at h
        split at h <;> exact Except.noConfusion h

/-- Concrete test configuration: page size 48, slot size 8 (stride 8, two
slots per page at offsets 32 and 40), supplier holding the single page base
48, zeroed memory. -/
def sT0 : PageAllocator := initState 8 [48] fun _ => 0

/-- State after one `Allocate` on `sT0` (returns slot 80). -/
def sT1 : PageAllocator :=
  match PageAllocator.Allocate 48 sT0 with
  | .ok (s, _) => s
  | .error _ => sT0

/-- State after a second `Allocate` (returns slot 88; the page is full). -/
def sT2 : PageAllocator :=
  match PageAllocator.Allocate 48 sT1 with
  | .ok (s, _) => s
  | .error _ => sT1

/-- State after `Deallocate 80` on `sT2` (the full page is re-linked). -/
def sT3 : PageAllocator :=
  match PageAllocator.Deallocate 48 sT2 80 with
  | .ok s => s
  | .error _ => sT2

/-- State after `Deallocate 88` on `sT3` (the page becomes idle and is
returned to the supplier). -/
def sT4 : PageAllocator :=
  match PageAllocator.Deallocate 48 sT3 88 with
  | .ok s => s
  | .error _ => sT3

/-- The single resident page of `sT1`: slot 80 allocated, slot 88 free. -/
def pgT1 : Page := { header := [88], base := 48, total := 2, free := 1 }

/-- The single resident page of `sT3`: slot 88 allocated, slot 80 free. -/
def pgT3 : Page := { header := [80], base := 48, total := 2, free := 1 }

theorem reachT0 : Reach 48 8 sT0 :=
  Reach.init [48] (fun _ => 0) (by decide) (by decide)

theorem allocT0 : PageAllocator.Allocate 48 sT0 = .ok (sT1, some 80) := rfl

theorem reachT1 : Reach 48 8 sT1 := Reach.alloc reachT0 allocT0

theorem allocT1 : PageAllocator.Allocate 48 sT1 = .ok (sT2, some 88) := rfl

theorem reachT2 : Reach 48 8 sT2 := Reach.alloc reachT1 allocT1

theorem deallocT2 : PageAllocator.Deallocate 48 sT2 80 = .ok sT3 := rfl

theorem reachT3 : Reach 48 8 sT3 := Reach.dealloc reachT2 (by decide) deallocT2

theorem deallocT3 : PageAllocator.Deallocate 48 sT3 88 = .ok sT4 := rfl

theorem reachT4 : Reach 48 8 sT4 := Reach.dealloc reachT3 (by decide) deallocT3

/-- C1: in every reachable state of a `PageAllocator` at an operation
boundary, a resident page is present in the `nonFull` list if and only if
its free slot count is nonzero. -/
theorem claim_c1_nonFull_iff_free_pos {P z : Nat} {s : PageAllocator}
    (hG : GoodParams P z) (hr : Reach P z s) :
    ∀ p ∈ s.pages, (p.base ∈ s.nonFull ↔ 0 < p.free) := by
  intro p hp
  rw [(inv_of_reach hG hr).nonFullIff p hp]
  omega

theorem claim_c1_witness : pgT1.base ∈ sT1.nonFull ↔ 0 < pgT1.free :=
  claim_c1_nonFull_iff_free_pos (by decide) reachT1 pgT1 (by decide)

/-- C2: a fully idle page never persists: in every reachable state no
resident page has `free = total`, and a `Deallocate` call that brings a
page's free count up to its total removes that page from the resident set,
pushes its base back to the page supplier and leaves it out of the
`nonFull` list, all before the call returns. -/
theorem claim_c2_idle_page_destroyed {P z : Nat} {s : PageAllocator}
    (hG : GoodParams P z) (hr : Reach P z s) :
    (∀ p ∈ s.pages, p.free ≠ p.total) ∧
    (∀ a ∈ s.live, ∀ p ∈ s.pages, alignDown a P = p.base → p.free + 1 = p.total →
      ∀ s', PageAllocator.Deallocate P s a = .ok s' →
        p.base ∉ s'.pages.map Page.base ∧ p.base ∈ s'.supply ∧ p.base ∉ s'.nonFull) := by
  have hI := inv_of_reach hG hr
  constructor
  · intro p hp
    exact Nat.ne_of_lt (hI.freeLt p hp)
  · intro a ha p hp halign hfull s' hdeal
    obtain ⟨pg, hpg, hal2, _, s'', heq, _, hdes⟩ := dealloc_spec hG hI ha
    have hpq : pg = p := base_inj hI.basesNodup hpg hp (by rw [← hal2, halign])
    subst hpq
    rw [hdeal] at heq
    have hss : s' = s'' := Except.ok.inj heq
    subst hss
    exact hdes hfull

theorem claim_c2_witness :
    pgT3.free ≠ pgT3.total ∧
    (pgT3.base ∉ sT4.pages.map Page.base ∧ pgT3.base ∈ sT4.supply ∧
      pgT3.base ∉ sT4.nonFull) :=
  have h := claim_c2_idle_page_destroyed (by decide) reachT3
  ⟨h.1 pgT3 (by decide),
   h.2 88 (by decide) pgT3 (by decide) (by decide) (by decide) sT4 deallocT3⟩

/-- C3: every pointer returned by `PageAllocator::Allocate` from a
reachable state is aligned to the allocation alignment (8 bytes), and the
`slotSize` bytes starting at it are all zero at the moment `Allocate`
returns. -/
theorem claim_c3_allocate_aligned_zeroed {P z : Nat} {s s' : PageAllocator} {r : Nat}
    (hG : GoodParams P z) (hr : Reach P z s)
    (h : PageAllocator.Allocate P s = .ok (s', some r)) :
    r % 8 = 0 ∧ ∀ i, i < z → s'.mem (r + i) = 0 := by
  obtain ⟨_, a, hres, hal8, _, hmem, _⟩ := alloc_spec hG (inv_of_reach hG hr) h
  have har : a = r := Option.some.inj hres.symm
  subst har
  exact ⟨hal8, hmem⟩

theorem claim_c3_witness : 80 % 8 = 0 ∧ sT1.mem (80 + 3) = 0 :=
  have h := claim_c3_allocate_aligned_zeroed (by decide) reachT0 allocT0
  ⟨h.1, h.2 3 (by decide)⟩

/-- C4 counterexample: with slot size 24 (stride 24) and page size 96, the
first pointer returned on the page based at 96 is 96 + 32 = 128, which is
not a multiple of the stride 24 — `Allocate` results are not stride
aligned in general. -/
theorem claim_c4_counterexample :
    allocResult 96 (initState 24 [96] fun _ => 0) = some 128 ∧
    ¬(128 % strideOf 24 = 0) := by
  exact ⟨by decide, by decide⟩

/-- C4 amended: every pointer returned by `PageAllocator::Allocate` from a
reachable state is aligned to the allocation alignment (8 bytes); alignment
to the full stride does not hold in general. -/
theorem claim_c4_amended_alloc_alignment {P z : Nat} {s s' : PageAllocator} {r : Nat}
    (hG : GoodParams P z) (hr : Reach P z s)
    (h : PageAllocator.Allocate P s = .ok (s', some r)) :
    r % 8 = 0 := by
  obtain ⟨_, a, hres, hal8, _, _, _⟩ := alloc_spec hG (inv_of_reach hG hr) h
  have har : a = r := Option.some.inj hres.symm
  subst har
  exact hal8

theorem claim_c4_witness : (80 : Nat) % 8 = 0 :=
  claim_c4_amended_alloc_alignment (by decide) reachT0 allocT0

/-- C6: in every reachable state, any two distinct live allocations of the
same `PageAllocator` occupy disjoint address ranges of the slot size. -/
theorem claim_c6_live_disjoint {P z : Nat} {s : PageAllocator}
    (hG : GoodParams P z) (hr : Reach P z s) :
    ∀ a ∈ s.live, ∀ b ∈ s.live, a ≠ b → a + z ≤ b ∨ b + z ≤ a := by
  have hI := inv_of_reach hG hr
  intro a ha b hb hne
  obtain ⟨p, hp, hps, _⟩ := hI.liveInPages a ha
  obtain ⟨q, hq, hqs, _⟩ := hI.liveInPages b hb
  have hz := (stride_facts hG).2.1
  by_cases hpq : p.base = q.base
  · rw [hpq] at hps
    obtain ⟨i, hi, rfl⟩ := mem_slotAddrs.1 hps
    obtain ⟨j, hj, rfl⟩ := mem_slotAddrs.1 hqs
    have hij : i ≠ j := by
      intro hc
      exact hne (by rw [hc])
    rcases Nat.lt_or_ge i j with hlt | hge
    · left
      have hmul : (i + 1) * strideOf z ≤ j * strideOf z :=
        Nat.mul_le_mul_right _ (by omega)
      have hexp : (i + 1) * strideOf z = i * strideOf z + strideOf z := by ring
      omega
    · right
      have hj2 : j < i := by omega
      have hmul : (j + 1) * strideOf z ≤ i * strideOf z :=
        Nat.mul_le_mul_right _ (by omega)
      have hexp : (j + 1) * strideOf z = j * strideOf z + strideOf z := by ring
      omega
  · have h1 := slotAddr_bounds hG hps
    have h2 := slotAddr_bounds hG hqs
    rcases base_separation (pageSize_pos hG) (hI.basesAligned p hp).1
      (hI.basesAligned q hq).1 hpq with hsep | hsep
    · left
      omega
    · right
      omega

theorem claim_c6_witness : 88 + 8 ≤ 80 ∨ 80 + 8 ≤ 88 :=
  claim_c6_live_disjoint (by decide) reachT2 88 (by decide) 80 (by decide) (by decide)

/-- C7: from the initial state, after any sequence of `Allocate` and
`Deallocate` calls in which every allocated slot has been deallocated again
(no live allocation remains), the allocator holds no resident page and its
`totalPages` counter is back to its initial value 0 — every page has been
released to the page supplier.  The deallocation order is arbitrary since
`Reach` covers all interleavings. -/
theorem claim_c7_roundtrip_releases_pages {P z : Nat} {s : PageAllocator}
    (hG : GoodParams P z) (hr : Reach P z s) (hlive : s.live = []) :
    s.pages = [] ∧ s.totalPages = 0 := by
  have hI := inv_of_reach hG hr
  have htpos : 0 < strideOf z := by
    have := (stride_facts hG).1
    omega
  have hpages : s.pages = [] := by
    cases hps : s.pages with
    | nil => rfl
    | cons p rest =>
      exfalso
      have hp : p ∈ s.pages := by
        rw [hps]
        exact List.mem_cons_self _ _
      have hlt := hI.freeLt p hp
      have hflen := hI.freeLen p hp
      have htot := hI.pageTotal p hp
      have hsub : slotAddrs P (strideOf z) p.base ⊆ p.header := by
        intro x hx
        rcases hI.slotPartition p hp x hx with hxh | hxl
        · exact hxh
        · rw [hlive] at hxl
          cases hxl
      have hle := (List.subperm_of_subset (slotAddrs_nodup htpos) hsub).length_le
      rw [slotAddrs_length] at hle
      omega
  refine ⟨hpages, ?_⟩
  have h := hI.totalPagesEq
  rw [hpages] at h
  simpa using h

theorem claim_c7_witness : sT4.pages = [] ∧ sT4.totalPages = 0 :=
  claim_c7_roundtrip_releases_pages (by decide) reachT4 (by decide)

/-- C5 counterexample: at size `2^32` (with largest class 1024 and the
modelled index map), `AggregateAllocator::Allocate` truncates the size to
32 bits, computes aligned size 0 and routes to a size-class slab, while the
claim's routing rule (round the requested size itself up to the alignment)
routes to the page supplier — the two disagree. -/
theorem claim_c5_counterexample :
    allocRoute 1024 (fun n => n / 8) (2 ^ 32) ≠
    specClaimRoute 1024 (fun n => n / 8) (2 ^ 32) := by
  decide

/-- C5 amended: for every requested byte size of at most `2^32 - 8` (so
that the 32-bit truncation and the 32-bit `+ 7` cannot wrap),
`AggregateAllocator::Allocate` rounds the size up to the allocation
alignment and delegates to the size-class allocator at the mapped index
when the aligned size is at most the largest class, otherwise directly to
the page supplier; `Deallocate` with the same size makes the identical
routing decision. -/
theorem claim_c5_amended_routing (L : Nat) (idx : Nat → Nat) (size : Nat)
    (h : size + 8 ≤ 2 ^ 32) :
    allocRoute L idx size = specClaimRoute L idx size ∧
    deallocRoute L idx size = allocRoute L idx size := by
  have hs : size % 2 ^ 32 = size := Nat.mod_eq_of_lt (by omega)
  have h7 : (size + 7) % 2 ^ 32 = size + 7 := Nat.mod_eq_of_lt (by omega)
  have hkey : alignedSize32 size = alignUp size ALLOC_ALIGNMENT := by
    unfold alignedSize32 alignUp ALLOC_ALIGNMENT
    omega
  constructor
  · simp only [allocRoute, specClaimRoute, hkey]
  · rfl

theorem claim_c5_witness :
    allocRoute 1024 (fun n => n / 8) 24 = specClaimRoute 1024 (fun n => n / 8) 24 ∧
    deallocRoute 1024 (fun n => n / 8) 24 = allocRoute 1024 (fun n => n / 8) 24 :=
  claim_c5_amended_routing 1024 (fun n => n / 8) 24 (by decide)

/-- C8: `InitPage` fails fatally exactly when the computed slot count (page
size minus the aligned header size, divided by the stride, truncated to
`uint16_t`) is below 1, its only failure is that check, and for every
configuration whose computed slot count passes the check no `Allocate`
call — from any state with that stride — can trigger this failure. -/
theorem claim_c8_initCheck (P t b : Nat) (mem : Nat → Nat) :
    ((∃ f, InitPage P t b mem = .error f) ↔ numSlots P t % 2 ^ 16 < 1) ∧
    (∀ f, InitPage P t b mem = .error f → f = Fault.initCheck) ∧
    (1 ≤ numSlots P t % 2 ^ 16 →
      ∀ s : PageAllocator, s.slotAlignment = t →
        PageAllocator.Allocate P s ≠ .error Fault.initCheck) := by
  refine ⟨⟨?_, ?_⟩, ?_, ?_⟩
  · rintro ⟨f, hf⟩
    by_contra hn
    dsimp only [InitPage] at hf
    rw [if_neg hn] at hf
    exact Except.noConfusion hf
  · intro hlt
    refine ⟨Fault.initCheck, ?_⟩
    dsimp only [InitPage]
    rw [if_pos hlt]
  · intro f hf
    dsimp only [InitPage] at hf
    by_cases hc : numSlots P t % 2 ^ 16 < 1
    · rw [if_pos hc] at hf
      exact (Except.error.inj hf).symm
    · rw [if_neg hc] at hf
      exact Except.noConfusion hf
  · intro h1 s hst h
    cases hnf : s.nonFull with
    | cons b' nf =>
      simp only [PageAllocator.Allocate, hnf] at h
      exact afh_no_initCheck P s h
    | nil =>
      simp only [PageAllocator.Allocate, hnf] at h
      cases hsup : s.supply with
      | nil =>
        simp only [hsup] at h
        exact Fault.noConfusion (Except.error.inj h)
      | cons b' rest =>
        simp only [hsup] at h
        cases hini : InitPage P s.slotAlignment b' s.mem with
        | error f =>
          rw [hst] at hini
          dsimp only [InitPage] at hini
          rw [if_neg (by omega)] at hini
          exact Except.noConfusion hini
        | ok pr =>
          rw [hini] at h
          simp only at h
          exact afh_no_initCheck P _ h

theorem claim_c8_witness :
    ((∃ f, InitPage 48 8 48 (fun _ => 0) = .error f) ↔ numSlots 48 8 % 2 ^ 16 < 1) ∧
    PageAllocator.Allocate 48 sT0 ≠ .error Fault.initCheck :=
  have h := claim_c8_initCheck 48 8 48 (fun _ => 0)
  ⟨h.1, h.2.2 (by decide) sT0 rfl⟩

/-- C9: evaluation of the code at the failing input.  When the `nonFull`
list is empty and the page supplier is exhausted (`PagePool::GetPage`
returns null), `Allocate` dereferences the null page pointer inside
`InitPage(*cur)` — the fault is `nullDeref`, an unchecked crash, not one of
the code's `CHECK_DETAIL` diagnostics; no pointer is returned and nothing
is retried. -/
theorem claim_c9_supplier_failure :
    PageAllocator.Allocate 48 (initState 8 [] fun _ => 0) = .error Fault.nullDeref := rfl

/-- C10: `AggregateAllocator::Allocate` and `Deallocate` compute the
routing decision and size-class index on the requested size truncated to 32
bits: the request `2^32 + 8` is larger than `2^32`, its value modulo `2^32`
aligns to 8, and (for any size-class table whose largest class is at least
8) both calls route it to the small size-class slab allocator at the index
of 8 instead of the page supplier's region path. -/
theorem claim_c10_truncated_routing (L : Nat) (idx : Nat → Nat) (h8 : 8 ≤ L) :
    2 ^ 32 < 2 ^ 32 + 8 ∧ (2 ^ 32 + 8) % 2 ^ 32 = 8 ∧
    alignedSize32 (2 ^ 32 + 8) = 8 ∧
    allocRoute L idx (2 ^ 32 + 8) = Route.slab (idx 8) ∧
    deallocRoute L idx (2 ^ 32 + 8) = Route.slab (idx 8) := by
  have hA : alignedSize32 (2 ^ 32 + 8) = 8 := by decide
  refine ⟨by omega, by omega, hA, ?_, ?_⟩
  · simp only [allocRoute, hA]
    rw [if_pos h8]
  · simp only [deallocRoute, hA]
    rw [if_pos h8]

theorem claim_c10_witness :
    2 ^ 32 < 2 ^ 32 + 8 ∧ (2 ^ 32 + 8) % 2 ^ 32 = 8 ∧
    alignedSize32 (2 ^ 32 + 8) = 8 ∧
    allocRoute 1024 (fun n => n / 8) (2 ^ 32 + 8) = Route.slab 1 ∧
    deallocRoute 1024 (fun n => n / 8) (2 ^ 32 + 8) = Route.slab 1 :=
  claim_c10_truncated_routing 1024 (fun n => n / 8) (by decide)

end MapleRuntime
